import Mathlib

/-!
Shallow embedding of the kur batch-evaluation engine and its chunked data
sources (files kur/model/evaluate.py, kur/sources/mysource.py and
kur/supplier/mysupplier.py).  Python dicts, which preserve insertion
order, are embedded as association lists; numpy arrays are embedded as
lists of per-record rows; Python exceptions are embedded as
Except String, carrying the exception class name.
-/

set_option autoImplicit false
set_option synthInstance.maxSize 512

deriving instance DecidableEq for Except

namespace Kur

variable {ρ σ α : Type}

/-- A batch, as yielded by a provider: a mapping from source name to the
array of rows for this batch. -/
abbrev Batch (ρ : Type) := List (String × List ρ)

/-- Accumulator mapping used by Evaluator.evaluate: output name to a list
of rows; a `none` entry embeds the Python placeholder None that the
known-total strategy preallocates. -/
abbrev Acc (ρ : Type) := List (String × List (Option ρ))

/-- Python `k in batch`. -/
def batchHasKey (b : Batch ρ) (k : String) : Bool :=
  b.any (fun p => p.1 == k)

/-- Python `batch[k]`: raises KeyError when the key is absent. -/
def batchGet (b : Batch ρ) (k : String) : Except String (List ρ) :=
  match b.find? (fun p => p.1 == k) with
  | some p => Except.ok p.2
  | none => Except.error "KeyError"

/-- Modelled from the spec: get_any_value lives in kur/utils/iterhelp.py,
which is not under src/.  The spec says the batch size is computed from
any value of the batch, all values agreeing on the leading dimension; we
take the first value, and give an empty batch size 0. -/
def get_any_value (b : Batch ρ) : List ρ :=
  (b.head?.map Prod.snd).getD []

/-- Python dict read `result[k]` on an accumulator: KeyError when absent. -/
def accGet (a : Acc ρ) (k : String) : Except String (List (Option ρ)) :=
  match a.find? (fun p => p.1 == k) with
  | some p => Except.ok p.2
  | none => Except.error "KeyError"

/-- Replacement of the value stored under key `k` (embeds the in-place
mutation of the unaliased list held in the accumulator dict). -/
def accSet (a : Acc ρ) (k : String) (v : List (Option ρ)) : Acc ρ :=
  a.map (fun p => if p.1 == k then (p.1, v) else p)

/-- Python list slice assignment `l[s:e] = repl` for nonnegative bounds. -/
def sliceAssign (l : List σ) (s e : Nat) (repl : List σ) : List σ :=
  let s2 := min s l.length
  let e2 := min (max e s2) l.length
  l.take s2 ++ repl ++ l.drop e2

/-- The loop `for k, v in evaluated.items(): result[k] = upd(result[k], v)`
shared by both accumulation strategies of Evaluator.evaluate.  A missing
key raises KeyError and aborts the loop. -/
def accUpdateAll (upd : List (Option ρ) → List ρ → List (Option ρ))
    (res : Acc ρ) : List (String × List ρ) → Except String (Acc ρ)
  | [] => Except.ok res
  | kv :: rest =>
    match accGet res kv.1 with
    | Except.error e => Except.error e
    | Except.ok old => accUpdateAll upd (accSet res kv.1 (upd old kv.2)) rest

/-- Inner loop of `for k in truth: truth[k] = upd(truth[k], batch[k])`,
iterating over the (fixed) key list of the truth dict. -/
def truthUpdateGo (upd : List (Option ρ) → List ρ → List (Option ρ))
    (b : Batch ρ) (t : Acc ρ) : List String → Except String (Acc ρ)
  | [] => Except.ok t
  | k :: rest =>
    match accGet t k, batchGet b k with
    | Except.error e, _ => Except.error e
    | Except.ok _, Except.error e => Except.error e
    | Except.ok old, Except.ok bv => truthUpdateGo upd b (accSet t k (upd old bv)) rest

/-- The loop `for k in truth: truth[k] = upd(truth[k], batch[k])`. -/
def truthUpdateAll (upd : List (Option ρ) → List ρ → List (Option ρ))
    (t : Acc ρ) (b : Batch ρ) : Except String (Acc ρ) :=
  truthUpdateGo upd b t (t.map Prod.fst)

/-- Loop state of Evaluator.evaluate. -/
structure EvState (ρ : Type) where
  result : Option (Acc ρ)
  truth : Option (Acc ρ)
  has_truth : Option Bool
  n_entries : Nat

/-- One iteration of the evaluate loop with callback = None, translated
from Evaluator.evaluate in kur/model/evaluate.py. -/
def evalStep (outputs : List String) (beval : Batch ρ → List (String × List ρ))
    (total : Option Nat) (s : EvState ρ) (b : Batch ρ) :
    Except String (EvState ρ) :=
  let evaluated := beval b
  let bs := (get_any_value b).length
  let ht := s.has_truth.getD (outputs.all (batchHasKey b))
  match total with
  | none =>
    match accUpdateAll (fun old v => old ++ v.map some)
        (s.result.getD (outputs.map (fun k => (k, ([] : List (Option ρ))))))
        evaluated with
    | Except.error e => Except.error e
    | Except.ok res =>
      if ht then
        match truthUpdateAll (fun old v => old ++ v.map some)
            (s.truth.getD (outputs.map (fun k => (k, ([] : List (Option ρ)))))) b with
        | Except.error e => Except.error e
        | Except.ok t => Except.ok ⟨some res, some t, some ht, s.n_entries + bs⟩
      else Except.ok ⟨some res, s.truth, some ht, s.n_entries + bs⟩
  | some tot =>
    match accUpdateAll
        (fun old v => sliceAssign old s.n_entries (s.n_entries + bs) (v.map some))
        (s.result.getD
          (evaluated.map (fun kv => (kv.1, List.replicate tot (none : Option ρ)))))
        evaluated with
    | Except.error e => Except.error e
    | Except.ok res =>
      if ht then
        match truthUpdateAll
            (fun old v => sliceAssign old s.n_entries (s.n_entries + bs) (v.map some))
            (s.truth.getD
              (evaluated.map (fun kv => (kv.1, List.replicate tot (none : Option ρ)))))
            b with
        | Except.error e => Except.error e
        | Except.ok t => Except.ok ⟨some res, some t, some ht, s.n_entries + bs⟩
      else Except.ok ⟨some res, s.truth, some ht, s.n_entries + bs⟩

/-- numpy.concatenate on the accumulated list of per-record rows,
abstracted to the row-list level: it re-forms the array of rows and
raises ValueError on an empty input list. -/
def npConcatenate (l : List (Option ρ)) : Except String (List (Option ρ)) :=
  match l with
  | [] => Except.error "ValueError"
  | _ => Except.ok l

/-- The finalization loop
`for k, v in result.items(): result[k] = numpy.concatenate(v)`. -/
def finalizeAcc : Acc ρ → Except String (Acc ρ)
  | [] => Except.ok []
  | kv :: rest =>
    match npConcatenate kv.2 with
    | Except.error e => Except.error e
    | Except.ok v =>
      match finalizeAcc rest with
      | Except.error e => Except.error e
      | Except.ok r => Except.ok ((kv.1, v) :: r)

/-- The `for batch in provider` loop of Evaluator.evaluate with
callback = None. -/
def evalLoop (outputs : List String) (beval : Batch ρ → List (String × List ρ))
    (total : Option Nat) (s : EvState ρ) : List (Batch ρ) → Except String (EvState ρ)
  | [] => Except.ok s
  | b :: rest =>
    match evalStep outputs beval total s b with
    | Except.error e => Except.error e
    | Except.ok s2 => evalLoop outputs beval total s2 rest

/-- Evaluator.evaluate with callback = None: runs the batch loop, then the
finalization.  In the unknown-total path the code runs result.items() and
truth.items() unconditionally, so a None result or None truth raises
AttributeError there.  The known-total path returns (result, truth) as
they stand. -/
def evaluate (outputs : List String) (beval : Batch ρ → List (String × List ρ))
    (total : Option Nat) (batches : List (Batch ρ)) :
    Except String (Option (Acc ρ) × Option (Acc ρ)) :=
  match evalLoop outputs beval total ⟨none, none, none, 0⟩ batches with
  | Except.error e => Except.error e
  | Except.ok s =>
    match total with
    | none =>
      match s.result with
      | none => Except.error "AttributeError"
      | some r =>
        match finalizeAcc r with
        | Except.error e => Except.error e
        | Except.ok res =>
          match s.truth with
          | none => Except.error "AttributeError"
          | some t =>
            match finalizeAcc t with
            | Except.error e => Except.error e
            | Except.ok tr => Except.ok (some res, some tr)
    | some _ => Except.ok (s.result, s.truth)

/-- Loop state of Evaluator.evaluate when a callback is supplied, plus the
record of the callback invocations made so far. -/
structure CbState (ρ : Type) where
  result : Option (Acc ρ)
  truth : Option (Acc ρ)
  has_truth : Option Bool
  n_entries : Nat
  calls : List (List (String × List ρ) × Option (Acc ρ))

/-- One iteration of the evaluate loop when a callback is supplied: the
callback is invoked with (evaluated, truth) and nothing is accumulated. -/
def cbStep (outputs : List String) (beval : Batch ρ → List (String × List ρ))
    (s : CbState ρ) (b : Batch ρ) : CbState ρ :=
  let evaluated := beval b
  let bs := (get_any_value b).length
  let ht := s.has_truth.getD (outputs.all (batchHasKey b))
  { result := s.result, truth := s.truth, has_truth := some ht,
    n_entries := s.n_entries + bs, calls := s.calls ++ [(evaluated, s.truth)] }

/-- Evaluator.evaluate with a non-None callback: runs the loop, recording
each callback invocation, and returns None (the second component embeds
the bare `return`). -/
def evaluateCb (outputs : List String) (beval : Batch ρ → List (String × List ρ))
    (batches : List (Batch ρ)) :
    CbState ρ × Option (Option (Acc ρ) × Option (Acc ρ)) :=
  (batches.foldl (cbStep outputs beval) ⟨none, none, none, 0, []⟩, none)

namespace MySource

/-- Python `self.fnames[i]` for a nonnegative index, as read inside the
shuffle comprehension: raises IndexError when out of range. -/
def pyGetElem (l : List α) (i : Nat) : Except String α :=
  match l[i]? with
  | some x => Except.ok x
  | none => Except.error "IndexError"

/-- The list comprehension `[self.fnames[i] for i in indices]` from
MySource.shuffle, evaluated left to right. -/
def shuffle (fnames : List α) : List Nat → Except String (List α)
  | [] => Except.ok []
  | i :: rest =>
    match pyGetElem fnames i with
    | Except.ok x => (shuffle fnames rest).map (fun l => x :: l)
    | Except.error e => Except.error e

/-- The fnames attribute after calling shuffle: the comprehension is fully
evaluated before the attribute assignment, so on IndexError the attribute
keeps its old value. -/
def shuffleState (fnames : List α) (indices : List Nat) : List α :=
  match shuffle fnames indices with
  | Except.ok l => l
  | Except.error _ => fnames

/-- Loop body of MySource.__iter__, with explicit fuel.  The Python while
loop consumes at least one record per iteration whenever chunk_size is
positive, so fuel = number of remaining records suffices; for
chunk_size = 0 the Python loop does not terminate, and the embedding is
only used with positive chunk sizes. -/
def iterChunksAux (cs : Nat) (zero : ρ) (read : α → ρ) :
    Nat → List α → List (List ρ)
  | _, [] => []
  | 0, _ :: _ => []
  | fuel + 1, x :: xs =>
    (((x :: xs).take cs).map read
        ++ List.replicate (cs - min cs (x :: xs).length) zero)
      :: iterChunksAux cs zero read fuel ((x :: xs).drop cs)

/-- MySource.__iter__: each iteration yields the buffer
np.zeros((chunk_size,) + shape()) whose first min(chunk_size, remaining)
rows are filled with the records read from the chunk fnames; the trailing
rows keep the zero fill. -/
def iterChunks (cs : Nat) (zero : ρ) (read : α → ρ) (fnames : List α) :
    List (List ρ) :=
  iterChunksAux cs zero read fnames.length fnames

/-- The successive values of the loop variable chunk_fnames in
MySource.__iter__, i.e. the slices fnames[start:end]. -/
def iterChunkFnamesAux (cs : Nat) : Nat → List α → List (List α)
  | _, [] => []
  | 0, _ :: _ => []
  | fuel + 1, x :: xs =>
    ((x :: xs).take cs) :: iterChunkFnamesAux cs fuel ((x :: xs).drop cs)

/-- The list of chunk_fnames slices taken during one pass of
MySource.__iter__. -/
def iterChunkFnames (cs : Nat) (fnames : List α) : List (List α) :=
  iterChunkFnamesAux cs fnames.length fnames

end MySource

namespace MySupplier

/-- The KeyError message raised by MySupplier.get_sources. -/
def errMsg (k : String) (keys : List String) : String :=
  "Invalid data key: " ++ k ++ ". Valid keys are: " ++
    String.intercalate ", " keys

/-- MySupplier.get_sources over the registry self.data, an insertion
ordered mapping from name to source; `none` embeds the sources=None
default, which requests all registered names. -/
def get_sources [Inhabited σ] (data : List (String × σ))
    (sources : Option (List String)) : Except String (List (String × σ)) :=
  let keys := data.map Prod.fst
  let req := sources.getD keys
  match req.find? (fun s => !(keys.contains s)) with
  | some bad => Except.error (errMsg bad keys)
  | none =>
    Except.ok (req.map (fun k =>
      (k, ((data.find? (fun p => p.1 == k)).map Prod.snd).getD default)))

end MySupplier

/-- Heap of Python list objects; an address is an index into cells.  Used
to state aliasing facts about the fnames lists shared between sources. -/
structure Heap (α : Type) where
  cells : List (List α)

/-- Dereference a list object. -/
def Heap.read (h : Heap α) (r : Nat) : List α :=
  h.cells.getD r []

/-- Allocate a fresh list object and return its address. -/
def Heap.alloc (h : Heap α) (v : List α) : Heap α × Nat :=
  (⟨h.cells ++ [v]⟩, h.cells.length)

/-- A MySource object as stored attributes: a reference to its fnames
list object, plus the field name. -/
structure SourceObj where
  fnamesRef : Nat
  name : String

/-- MySource.shuffle at the object level: the comprehension builds a new
list object, then self.fnames is rebound to it; the old list object is
never mutated. -/
def shuffleObj (h : Heap α) (s : SourceObj) (indices : List Nat) :
    Except String (Heap α × SourceObj) := do
  let l := h.read s.fnamesRef
  let l2 ← MySource.shuffle l indices
  let p := h.alloc l2
  pure (p.1, { s with fnamesRef := p.2 })

/-- MySupplier.__init__: builds the fnames list once and passes the same
list object to both the x and the y source. -/
def mkSupplier (h : Heap String) (fnames : List String) :
    Heap String × SourceObj × SourceObj :=
  let p := h.alloc fnames
  (p.1, ⟨p.2, "x"⟩, ⟨p.2, "y"⟩)

/-! ### Verification infrastructure

Derived notions used to state and prove properties of the embedding. -/

/-- A dict with key list `ks` and value `f k` under each key `k`. -/
def canon (ks : List String) (f : String → List (Option ρ)) : Acc ρ :=
  ks.map (fun k => (k, f k))

/-- Total lookup in an association list (empty list when absent). -/
def evLookup (ev : List (String × List ρ)) (k : String) : List ρ :=
  ((ev.find? (fun p => p.1 == k)).map Prod.snd).getD []

/-- The rows an association list holds under key `k`, as accumulator rows. -/
def evRows (ev : List (String × List ρ)) (k : String) : List (Option ρ) :=
  (evLookup ev k).map some

/-- The batch size the evaluate loop computes for a batch. -/
def bsize (b : Batch ρ) : Nat :=
  (get_any_value b).length

/-- Rows accumulated for output `k` over a list of batches from the
backend results. -/
def rowsAll (beval : Batch ρ → List (String × List ρ)) (bs : List (Batch ρ))
    (k : String) : List (Option ρ) :=
  (bs.map (fun b => evRows (beval b) k)).flatten

/-- Rows accumulated for output `k` over a list of batches from the
batches themselves (ground truth). -/
def trowsAll (bs : List (Batch ρ)) (k : String) : List (Option ρ) :=
  (bs.map (fun b => evRows b k)).flatten

/-- Total number of records over a list of batches. -/
def sizes (bs : List (Batch ρ)) : Nat :=
  (bs.map bsize).sum

/-- Collaborator contract for one batch: the backend result is keyed
exactly by the model outputs, every array in play has the batch's leading
dimension, and the batch carries ground truth under every output name. -/
def GoodBatch (outputs : List String) (beval : Batch ρ → List (String × List ρ))
    (b : Batch ρ) : Prop :=
  (beval b).map Prod.fst = outputs
  ∧ (∀ kv ∈ beval b, kv.2.length = bsize b)
  ∧ (∀ k ∈ outputs, batchHasKey b k = true ∧ (evLookup b k).length = bsize b)

instance (outputs : List String) (beval : Batch ρ → List (String × List ρ))
    (b : Batch ρ) : Decidable (GoodBatch outputs beval b) := by
  unfold GoodBatch
  infer_instance

/-! ### Lemmas about MySource -/

namespace MySource

lemma shuffle_ok (fnames : List α) (d : α) :
    ∀ (p : List Nat), (∀ i ∈ p, i < fnames.length) →
      shuffle fnames p = Except.ok (p.map (fun i => fnames.getD i d))
  | [], _ => rfl
  | i :: rest, h => by
    have hi : i < fnames.length := h i (List.mem_cons_self i rest)
    have hrest := shuffle_ok fnames d rest (fun j hj => h j (List.mem_cons_of_mem i hj))
    simp [shuffle, pyGetElem, List.getElem?_eq_getElem hi, hrest, Except.map,
      List.getD_eq_getElem?_getD]

lemma shuffleState_ok (fnames : List α) (d : α) (p : List Nat)
    (h : ∀ i ∈ p, i < fnames.length) :
    shuffleState fnames p = p.map (fun i => fnames.getD i d) := by
  simp [shuffleState, shuffle_ok fnames d p h]

lemma getD_range_map (l : List α) (d : α) :
    (List.range l.length).map (fun i => l.getD i d) = l := by
  apply List.ext_getElem
  · simp
  · intro i h1 h2
    simp [List.getD_eq_getElem?_getD, List.getElem?_eq_getElem h2]

lemma shuffle_err (fnames : List α) :
    ∀ (indices : List Nat), (∃ i ∈ indices, fnames.length ≤ i) →
      shuffle fnames indices = Except.error "IndexError"
  | [], h => by simp at h
  | i :: rest, h => by
    by_cases hi : i < fnames.length
    · have hrest : ∃ j ∈ rest, fnames.length ≤ j := by
        rcases h with ⟨j, hj, hlen⟩
        rcases List.mem_cons.mp hj with rfl | hj2
        · omega
        · exact ⟨j, hj2, hlen⟩
      simp [shuffle, pyGetElem, List.getElem?_eq_getElem hi,
        shuffle_err fnames rest hrest, Except.map]
    · have hnone : fnames[i]? = none := List.getElem?_eq_none (by omega)
      simp [shuffle, pyGetElem, hnone]

lemma iterChunkFnamesAux_flatten (cs : Nat) (hcs : 0 < cs) :
    ∀ (fuel : Nat) (l : List α), l.length ≤ fuel →
      (iterChunkFnamesAux cs fuel l).flatten = l
  | fuel, [], _ => by cases fuel <;> simp [iterChunkFnamesAux]
  | 0, x :: xs, h => by simp at h
  | fuel + 1, x :: xs, h => by
    have hlen : ((x :: xs).drop cs).length ≤ fuel := by
      simp only [List.length_drop] at *
      simp at h ⊢
      omega
    simp [iterChunkFnamesAux,
      iterChunkFnamesAux_flatten cs hcs fuel ((x :: xs).drop cs) hlen]

lemma iterChunksAux_eq (cs : Nat) (zero : ρ) (read : α → ρ) :
    ∀ (fuel : Nat) (l : List α),
      iterChunksAux cs zero read fuel l
        = (iterChunkFnamesAux cs fuel l).map
            (fun c => c.map read ++ List.replicate (cs - c.length) zero)
  | fuel, [] => by cases fuel <;> simp [iterChunksAux, iterChunkFnamesAux]
  | 0, x :: xs => by simp [iterChunksAux, iterChunkFnamesAux]
  | fuel + 1, x :: xs => by
    simp [iterChunksAux, iterChunkFnamesAux,
      iterChunksAux_eq cs zero read fuel ((x :: xs).drop cs), List.length_take]

end MySource

/-! ### Claim theorems about MySource -/

/-- C3: counter-evidence at the concrete failing input.  With 5 records
and chunk_size 2, MySource.__iter__ yields a final chunk whose leading
dimension is 2 (chunk_size), the unread row silently padded with the
zero fill, instead of a chunk truncated to the 1 remaining record. -/
theorem iterChunks_pads_final_chunk :
    MySource.iterChunks 2 (0 : Nat) id [1, 2, 3, 4, 5] = [[1, 2], [3, 4], [5, 0]]
    ∧ (MySource.iterChunks 2 (0 : Nat) id [1, 2, 3, 4, 5]).getLast? = some [5, 0] := by
  decide

/-- C4: counter-evidence at the concrete failing input.  Concatenating
the chunks of one pass over 3 records with chunk_size 2 yields 4 rows
(the last one a padded zero row), not the 3 source records. -/
theorem iterChunks_flatten_adds_padding :
    (MySource.iterChunks 2 (0 : Nat) id [10, 20, 30]).flatten = [10, 20, 30, 0]
    ∧ (MySource.iterChunks 2 (0 : Nat) id [10, 20, 30]).flatten ≠ [10, 20, 30] := by
  decide

/-- C6 counterexample: a list of in-range indices whose length disagrees
with the source length is accepted without any error, silently resizing
the record list; no InvalidPermutation condition exists in the code. -/
theorem shuffle_wrong_length_accepted :
    MySource.shuffle [(10 : Nat), 20] [0] = Except.ok [10]
    ∧ ([0] : List Nat).length ≠ ([(10 : Nat), 20]).length := by
  decide

/-- C6 amended: shuffle performs no length validation; the only failure
is an out-of-range index, which raises IndexError from the comprehension
before the fnames attribute is reassigned, so the ordering is unchanged
on failure. -/
theorem shuffle_out_of_range (fnames : List α) (indices : List Nat)
    (h : ∃ i ∈ indices, fnames.length ≤ i) :
    MySource.shuffle fnames indices = Except.error "IndexError"
    ∧ MySource.shuffleState fnames indices = fnames := by
  have he := MySource.shuffle_err fnames indices h
  exact ⟨he, by simp [MySource.shuffleState, he]⟩

/-- C6 witness. -/
theorem shuffle_out_of_range_witness :
    (∃ i ∈ ([0, 5] : List Nat), ([(1 : Nat), 2]).length ≤ i)
    ∧ (MySource.shuffle [(1 : Nat), 2] [0, 5] = Except.error "IndexError"
        ∧ MySource.shuffleState [(1 : Nat), 2] [0, 5] = [1, 2]) :=
  ⟨by decide, shuffle_out_of_range [(1 : Nat), 2] [0, 5] (by decide)⟩

/-- C8: after shuffle(p) with a valid permutation, one full pass reads
the records original[p[0]], original[p[1]], ... in exactly that order
(the chunk_fnames slices concatenate to the permuted record list, and
every yielded chunk consists of the reads of its chunk_fnames slice
followed by the zero fill); shuffling by the identity permutation leaves
the record list, hence the yielded chunk stream, unchanged. -/
theorem shuffle_iterate_order (cs : Nat) (original : List α) (p : List Nat)
    (d : α) (zero : ρ) (read : α → ρ) (hcs : 0 < cs)
    (hp : ∀ i ∈ p, i < original.length) :
    (MySource.iterChunkFnames cs (MySource.shuffleState original p)).flatten
        = p.map (fun i => original.getD i d)
    ∧ MySource.iterChunks cs zero read (MySource.shuffleState original p)
        = (MySource.iterChunkFnames cs (MySource.shuffleState original p)).map
            (fun c => c.map read ++ List.replicate (cs - c.length) zero)
    ∧ MySource.shuffleState original (List.range original.length) = original := by
  refine ⟨?_, ?_, ?_⟩
  · rw [MySource.shuffleState_ok original d p hp, MySource.iterChunkFnames,
      MySource.iterChunkFnamesAux_flatten cs hcs _ _ le_rfl]
  · rw [MySource.iterChunks, MySource.iterChunkFnames, MySource.iterChunksAux_eq]
  · rw [MySource.shuffleState_ok original d _ (fun i hi => List.mem_range.mp hi),
      MySource.getD_range_map]

/-- C8 witness. -/
theorem shuffle_iterate_order_witness :
    ((0 : Nat) < 2 ∧ ∀ i ∈ ([2, 0, 1] : List Nat), i < (["a", "b", "c"]).length)
    ∧ ((MySource.iterChunkFnames 2 (MySource.shuffleState ["a", "b", "c"] [2, 0, 1])).flatten
        = ([2, 0, 1] : List Nat).map (fun i => (["a", "b", "c"]).getD i "")
    ∧ MySource.iterChunks 2 (0 : Nat) String.length
          (MySource.shuffleState ["a", "b", "c"] [2, 0, 1])
        = (MySource.iterChunkFnames 2 (MySource.shuffleState ["a", "b", "c"] [2, 0, 1])).map
            (fun c => c.map String.length ++ List.replicate (2 - c.length) 0)
    ∧ MySource.shuffleState ["a", "b", "c"] (List.range (["a", "b", "c"]).length)
        = ["a", "b", "c"]) :=
  ⟨by decide,
    shuffle_iterate_order 2 ["a", "b", "c"] [2, 0, 1] "" 0 String.length
      (by decide) (by decide)⟩

/-! ### Claim theorems about MySupplier -/

/-- C7: when some requested name is not a registered source (bad being
the first such name), get_sources raises a KeyError whose message names
the offending key and lists every valid key, and returns no sources at
all. -/
theorem get_sources_unknown_key {σ : Type} [Inhabited σ] (data : List (String × σ))
    (req : List String) (bad : String)
    (h : req.find? (fun s => !((data.map Prod.fst).contains s)) = some bad) :
    MySupplier.get_sources data (some req)
      = Except.error (MySupplier.errMsg bad (data.map Prod.fst)) := by
  simp only [MySupplier.get_sources, Option.getD_some]
  rw [h]

/-- C7 witness: the scenario from the spec, requesting z from a registry
holding only x and y. -/
theorem get_sources_unknown_key_witness :
    MySupplier.get_sources [("x", (1 : Nat)), ("y", 2)] (some ["z"])
      = Except.error "Invalid data key: z. Valid keys are: x, y" := by
  rw [get_sources_unknown_key [("x", (1 : Nat)), ("y", 2)] ["z"] "z" (by decide)]
  rfl

/-! ### Claim theorems about aliasing (heap model) -/

lemma getD_append_left {β : Type} (l l2 : List β) (i : Nat) (d : β)
    (hi : i < l.length) : (l ++ l2).getD i d = l.getD i d := by
  simp [List.getD_eq_getElem?_getD, List.getElem?_append_left hi]

lemma getD_concat_length {β : Type} (l : List β) (a : β) (d : β) :
    (l ++ [a]).getD l.length d = a := by
  simp [List.getD_eq_getElem?_getD]

lemma except_bind_ok {ε β γ : Type} (a : β) (f : β → Except ε γ) :
    (Except.ok a : Except ε β) >>= f = f a := rfl

lemma except_bind_error {ε β γ : Type} (e : ε) (f : β → Except ε γ) :
    (Except.error e : Except ε β) >>= f = Except.error e := rfl

lemma shuffleObj_ok_cells {β : Type} (hp : Heap β) (s : SourceObj)
    (indices : List Nat) (h2 : Heap β) (s2 : SourceObj)
    (hsh : shuffleObj hp s indices = Except.ok (h2, s2)) :
    ∃ l2, h2 = ⟨hp.cells ++ [l2]⟩ := by
  simp only [shuffleObj] at hsh
  cases hres : MySource.shuffle (hp.read s.fnamesRef) indices with
  | error e =>
    rw [hres, except_bind_error] at hsh
    cases hsh
  | ok l2 =>
    rw [hres, except_bind_ok] at hsh
    simp only [Heap.alloc, pure, Except.pure, Except.ok.injEq, Prod.mk.injEq] at hsh
    exact ⟨l2, hsh.1.symm⟩

/-- C10: MySupplier builds both sources over the same fnames list object;
calling shuffle on the x source rebinds its fnames attribute to a freshly
built list and never mutates the shared list in place, so the y source
still observes the original record ordering. -/
theorem shuffle_frame (h : Heap String) (fnames : List String) (indices : List Nat)
    (h1 h2 : Heap String) (x y x2 : SourceObj)
    (hmk : mkSupplier h fnames = (h1, x, y))
    (hsh : shuffleObj h1 x indices = Except.ok (h2, x2)) :
    h2.read y.fnamesRef = h1.read y.fnamesRef
    ∧ h1.read y.fnamesRef = fnames := by
  have hh1 : h1 = ⟨h.cells ++ [fnames]⟩ := by
    have hfst := congrArg Prod.fst hmk
    simpa [mkSupplier, Heap.alloc] using hfst.symm
  have hy : y = ⟨h.cells.length, "y"⟩ := by
    have hsnd := congrArg (fun q => q.2.2) hmk
    simpa [mkSupplier, Heap.alloc] using hsnd.symm
  obtain ⟨l2, hcells⟩ := shuffleObj_ok_cells h1 x indices h2 x2 hsh
  have hyref : y.fnamesRef = h.cells.length := by rw [hy]
  have hylt : y.fnamesRef < h1.cells.length := by
    rw [hyref, hh1]
    simp
  constructor
  · rw [hcells]
    show (h1.cells ++ [l2]).getD y.fnamesRef [] = h1.read y.fnamesRef
    rw [getD_append_left h1.cells [l2] y.fnamesRef [] hylt]
    rfl
  · rw [hh1, hyref]
    show ((h.cells ++ [fnames]) : List (List String)).getD h.cells.length [] = fnames
    exact getD_concat_length h.cells fnames []

/-! ### Claim theorems about Evaluator.evaluate -/

lemma cb_fold (outputs : List String) (beval : Batch ρ → List (String × List ρ)) :
    ∀ (batches : List (Batch ρ)) (s : CbState ρ), s.truth = none → s.result = none →
      (List.foldl (cbStep outputs beval) s batches).calls
          = s.calls ++ batches.map (fun b => (beval b, none))
      ∧ (List.foldl (cbStep outputs beval) s batches).truth = none
      ∧ (List.foldl (cbStep outputs beval) s batches).result = none
  | [], s, ht, hr => by simp [ht, hr]
  | b :: rest, s, ht, hr => by
    have ih := cb_fold outputs beval rest (cbStep outputs beval s b)
      (by simp [cbStep, ht]) (by simp [cbStep, hr])
    simp only [List.foldl_cons]
    refine ⟨?_, ih.2.1, ih.2.2⟩
    rw [ih.1]
    simp [cbStep, ht]

/-- C9: with a callback supplied, the evaluate loop invokes the callback
exactly once per batch, every invocation passes truth = None, the method
returns None, and no result is ever materialized in the Evaluator. -/
theorem evaluateCb_truth_none (outputs : List String)
    (beval : Batch ρ → List (String × List ρ)) (batches : List (Batch ρ)) :
    (evaluateCb outputs beval batches).1.calls
        = batches.map (fun b => (beval b, (none : Option (Acc ρ))))
    ∧ (evaluateCb outputs beval batches).2 = none
    ∧ (evaluateCb outputs beval batches).1.result = none
    ∧ (evaluateCb outputs beval batches).1.truth = none := by
  have hf := cb_fold outputs beval batches ⟨none, none, none, 0, []⟩ rfl rfl
  exact ⟨by simpa using hf.1, rfl, hf.2.2, hf.2.1⟩

/-- C2: counter-evidence at the concrete failing input.  With one batch,
no ground truth co-located, and an unknown provider length, evaluate
raises AttributeError from `truth.items()` (truth is still None at
finalization) instead of returning (result, None); the known-total path
on the same data does return (result, None). -/
theorem evaluate_truthless_unknown_total_raises :
    evaluate ["y"] (fun _ => [("y", [(0 : Nat)])]) none [[("x", [5])]]
        = Except.error "AttributeError"
    ∧ evaluate ["y"] (fun _ => [("y", [(0 : Nat)])]) (some 1) [[("x", [5])]]
        = Except.ok (some [("y", [some 0])], none) := by
  decide

/-- C1 counterexample: on a dataset without co-located ground truth the
two strategies do not produce identical outcomes: the unknown-total path
raises AttributeError while the known-total path returns (result, None). -/
theorem evaluate_strategy_inequiv_truthless :
    evaluate ["out"] (fun _ => [("out", [(1 : Nat), 2])]) none [[("inp", [3, 4])]]
      ≠ evaluate ["out"] (fun _ => [("out", [(1 : Nat), 2])]) (some 2) [[("inp", [3, 4])]] := by
  decide

/-- C5 counterexample: with an unknown provider length, a first batch
lacking the output key and a later batch containing it, evaluate does not
return a result whose truth component is None: it raises AttributeError
at finalization. -/
theorem evaluate_unknown_total_no_first_truth_raises :
    evaluate ["t"] (fun _ => [("t", [(7 : Nat)])]) none
        [[("u", [1])], [("u", [2]), ("t", [9])]]
      = Except.error "AttributeError" := by
  decide

lemma evalStep_some_truth_inv (outputs : List String)
    (beval : Batch ρ → List (String × List ρ)) (tot : Nat) (s : EvState ρ)
    (b : Batch ρ) (s1 : EvState ρ) (ht : Bool)
    (hstep : evalStep outputs beval (some tot) s b = Except.ok s1)
    (hh : s.has_truth = some ht) :
    s1.has_truth = some ht
    ∧ (ht = false → s1.truth = s.truth)
    ∧ (ht = true → s1.truth.isSome = true) := by
  simp only [evalStep, hh, Option.getD_some] at hstep
  split at hstep
  · cases hstep
  · split at hstep
    · split at hstep
      · cases hstep
      · cases hstep
        refine ⟨rfl, ?_, fun _ => rfl⟩
        intro hf
        simp_all
    · cases hstep
      refine ⟨rfl, fun _ => rfl, ?_⟩
      intro htr
      simp_all

lemma evalStep_some_truth_first (outputs : List String)
    (beval : Batch ρ → List (String × List ρ)) (tot : Nat) (b : Batch ρ)
    (s1 : EvState ρ)
    (hstep : evalStep outputs beval (some tot) ⟨none, none, none, 0⟩ b = Except.ok s1) :
    s1.has_truth = some (outputs.all (batchHasKey b))
    ∧ (outputs.all (batchHasKey b) = false → s1.truth = none)
    ∧ (outputs.all (batchHasKey b) = true → s1.truth.isSome = true) := by
  simp only [evalStep, Option.getD_none] at hstep
  split at hstep
  · cases hstep
  · split at hstep
    · split at hstep
      · cases hstep
      · cases hstep
        refine ⟨rfl, ?_, fun _ => rfl⟩
        intro hf
        simp_all
    · cases hstep
      refine ⟨rfl, fun _ => rfl, ?_⟩
      intro htr
      simp_all

lemma evalLoop_some_truth_inv (outputs : List String)
    (beval : Batch ρ → List (String × List ρ)) (tot : Nat) (ht : Bool) :
    ∀ (batches : List (Batch ρ)) (s s1 : EvState ρ),
      evalLoop outputs beval (some tot) s batches = Except.ok s1 →
      s.has_truth = some ht →
      (ht = false → s.truth = none) → (ht = true → s.truth.isSome = true) →
      (ht = false → s1.truth = none) ∧ (ht = true → s1.truth.isSome = true)
  | [], s, s1, hl, _, h0, h1 => by
    cases hl
    exact ⟨h0, h1⟩
  | b :: rest, s, s1, hl, hh, h0, h1 => by
    simp only [evalLoop] at hl
    split at hl
    · cases hl
    · next s2 hstep =>
      obtain ⟨hh2, hf2, ht2⟩ := evalStep_some_truth_inv outputs beval tot s b s2 ht hstep hh
      exact evalLoop_some_truth_inv outputs beval tot ht rest s2 s1 hl hh2
        (fun hf0 => by rw [hf2 hf0]; exact h0 hf0) ht2

/-- C5 amended: in the known-total path (where evaluate returns normally),
the truth component of the returned pair is non-None exactly when every
model output name is a key of the first batch; in particular, when the
first batch lacks such a key, a later batch containing it never
reactivates truth detection. -/
theorem evaluate_known_total_truth_first_batch (outputs : List String)
    (beval : Batch ρ → List (String × List ρ)) (tot : Nat) (b0 : Batch ρ)
    (rest : List (Batch ρ)) (res tr : Option (Acc ρ))
    (h : evaluate outputs beval (some tot) (b0 :: rest) = Except.ok (res, tr)) :
    tr.isSome = outputs.all (batchHasKey b0) := by
  simp only [evaluate] at h
  split at h
  · cases h
  · next s hloop =>
    cases h
    simp only [evalLoop] at hloop
    split at hloop
    · cases hloop
    · next s2 hstep =>
      obtain ⟨hh2, hf2, ht2⟩ := evalStep_some_truth_first outputs beval tot b0 s2 hstep
      obtain ⟨hf, htr⟩ := evalLoop_some_truth_inv outputs beval tot
        (outputs.all (batchHasKey b0)) rest s2 s hloop hh2 hf2 ht2
      cases hb : outputs.all (batchHasKey b0) with
      | false => rw [hf hb]; rfl
      | true => exact htr hb

/-- C5 witness: known total, first batch lacks the output key t, second
batch contains it; the returned truth is still None. -/
theorem evaluate_known_total_truth_first_batch_witness :
    evaluate ["t"] (fun _ => [("t", [(7 : Nat)])]) (some 2)
        [[("u", [1])], [("u", [2]), ("t", [9])]]
      = Except.ok (some [("t", [some 7, some 7])], none)
    ∧ (none : Option (Acc Nat)).isSome
        = (["t"].all (batchHasKey [("u", [(1 : Nat)])])) :=
  ⟨by decide,
    evaluate_known_total_truth_first_batch ["t"] (fun _ => [("t", [(7 : Nat)])]) 2
      [("u", [1])] [[("u", [2]), ("t", [9])]] (some [("t", [some 7, some 7])]) none
      (by decide)⟩

/-- C10 witness: two sources sharing one fnames list object; shuffling x
leaves the list y observes unchanged. -/
theorem shuffle_frame_witness :
    Heap.read (⟨[["a", "b"], ["b", "a"]]⟩ : Heap String) 0
        = Heap.read (⟨[["a", "b"]]⟩ : Heap String) 0
    ∧ Heap.read (⟨[["a", "b"]]⟩ : Heap String) 0 = ["a", "b"] :=
  shuffle_frame ⟨[]⟩ ["a", "b"] [1, 0] ⟨[["a", "b"]]⟩ ⟨[["a", "b"], ["b", "a"]]⟩
    ⟨0, "x"⟩ ⟨0, "y"⟩ ⟨1, "x"⟩ rfl rfl

/-! ### Canonical-form lemmas for the accumulator dicts -/

lemma canon_keys (ks : List String) (f : String → List (Option ρ)) :
    (canon ks f).map Prod.fst = ks := by
  simp [canon, List.map_map, Function.comp_def]

lemma canon_congr {ks : List String} {f g : String → List (Option ρ)}
    (h : ∀ k ∈ ks, f k = g k) : canon ks f = canon ks g := by
  simp only [canon]
  exact List.map_congr_left (fun k hk => by rw [h k hk])

lemma accGet_canon {ks : List String} (f : String → List (Option ρ)) {k : String}
    (h : k ∈ ks) : accGet (canon ks f) k = Except.ok (f k) := by
  induction ks with
  | nil => cases h
  | cons a t ih =>
    by_cases hak : a = k
    · subst hak
      simp [accGet, canon]
    · have hk : k ∈ t := by
        rcases List.mem_cons.mp h with h1 | h1
        · exact absurd h1.symm hak
        · exact h1
      have hbeq : (a == k) = false := by
        simp [hak]
      simpa [accGet, canon, List.find?, hbeq] using ih hk

lemma accSet_canon (ks : List String) (f : String → List (Option ρ))
    (k : String) (v : List (Option ρ)) :
    accSet (canon ks f) k v = canon ks (fun k2 => if k2 == k then v else f k2) := by
  simp only [accSet, canon, List.map_map]
  apply List.map_congr_left
  intro a _
  by_cases hak : a = k
  · subst hak
    simp [Function.comp_def]
  · simp [Function.comp_def, hak]

lemma find?_key_of_mem_keys {β : Type} (l : List (String × β)) (k : String)
    (h : k ∈ l.map Prod.fst) :
    ∃ v, l.find? (fun p => p.1 == k) = some (k, v) := by
  induction l with
  | nil => simp at h
  | cons a t ih =>
    obtain ⟨a1, a2⟩ := a
    by_cases hak : a1 = k
    · subst hak
      exact ⟨a2, by simp [List.find?]⟩
    · have hk : k ∈ t.map Prod.fst := by
        rcases List.mem_cons.mp h with h1 | h1
        · exact absurd h1.symm hak
        · exact h1
      have hbeq : (a1 == k) = false := by simp [hak]
      simpa [List.find?, hbeq] using ih hk

lemma accUpdateAll_canon (upd : List (Option ρ) → List ρ → List (Option ρ)) :
    ∀ (ev : List (String × List ρ)) (ks : List String) (f : String → List (Option ρ)),
      (∀ kv ∈ ev, kv.1 ∈ ks) → (ev.map Prod.fst).Nodup →
      accUpdateAll upd (canon ks f) ev
        = Except.ok (canon ks (fun k =>
            match ev.find? (fun p => p.1 == k) with
            | some kv => upd (f k) kv.2
            | none => f k))
  | [], ks, f, _, _ => by
    simp [accUpdateAll, List.find?]
  | kv0 :: ev2, ks, f, hmem, hnd => by
    have hk0 : kv0.1 ∈ ks := hmem kv0 (List.mem_cons_self kv0 ev2)
    have hnd2 : (kv0.1 :: ev2.map Prod.fst).Nodup := by
      rw [List.map_cons] at hnd
      exact hnd
    have hcons := List.nodup_cons.mp hnd2
    have hmem2 : ∀ kv ∈ ev2, kv.1 ∈ ks :=
      fun kv hkv => hmem kv (List.mem_cons_of_mem kv0 hkv)
    have ih := accUpdateAll_canon upd ev2 ks
      (fun k2 => if k2 == kv0.1 then upd (f kv0.1) kv0.2 else f k2) hmem2 hcons.2
    have hstep : accUpdateAll upd (canon ks f) (kv0 :: ev2)
        = accUpdateAll upd
            (canon ks (fun k2 => if k2 == kv0.1 then upd (f kv0.1) kv0.2 else f k2))
            ev2 := by
      simp only [accUpdateAll, accGet_canon f hk0, accSet_canon]
    rw [hstep, ih]
    congr 1
    apply canon_congr
    intro k _
    by_cases hb : kv0.1 = k
    · subst hb
      have hnone : ev2.find? (fun p => p.1 == kv0.1) = none := by
        apply List.find?_eq_none.mpr
        intro p hp hpp
        exact hcons.1 (List.mem_map.mpr ⟨p, hp, eq_of_beq hpp⟩)
      simp [List.find?, hnone]
    · have hbf : (kv0.1 == k) = false := by simp [hb]
      have hbf2 : (k == kv0.1) = false := by simp [Ne.symm hb]
      simp only [List.find?, hbf, hbf2]
      cases hfind : ev2.find? (fun p => p.1 == k) <;> simp [hbf2, hfind]

lemma truthUpdateGo_canon (upd : List (Option ρ) → List ρ → List (Option ρ))
    (b : Batch ρ) (bv : String → List ρ) :
    ∀ (js ks : List String) (f : String → List (Option ρ)),
      js.Nodup → (∀ j ∈ js, j ∈ ks) →
      (∀ j ∈ js, batchGet b j = Except.ok (bv j)) →
      truthUpdateGo upd b (canon ks f) js
        = Except.ok (canon ks (fun k => if k ∈ js then upd (f k) (bv k) else f k))
  | [], ks, f, _, _, _ => by
    simp only [truthUpdateGo]
    exact congrArg Except.ok (canon_congr (fun k _ => by simp))
  | j :: js2, ks, f, hnd, hmem, hbv => by
    have hj : j ∈ ks := hmem j (List.mem_cons_self j js2)
    have hcons := List.nodup_cons.mp hnd
    have hmem2 : ∀ x ∈ js2, x ∈ ks := fun x hx => hmem x (List.mem_cons_of_mem j hx)
    have hbv2 : ∀ x ∈ js2, batchGet b x = Except.ok (bv x) :=
      fun x hx => hbv x (List.mem_cons_of_mem j hx)
    have hstep : truthUpdateGo upd b (canon ks f) (j :: js2)
        = truthUpdateGo upd b
            (canon ks (fun k2 => if k2 == j then upd (f j) (bv j) else f k2)) js2 := by
      simp only [truthUpdateGo, accGet_canon f hj, hbv j (List.mem_cons_self j js2),
        accSet_canon]
    rw [hstep, truthUpdateGo_canon upd b bv js2 ks _ hcons.2 hmem2 hbv2]
    apply congrArg Except.ok
    apply canon_congr
    intro k _
    by_cases hkj : k = j
    · subst hkj
      simp [hcons.1]
    · have hbf : (k == j) = false := by simp [hkj]
      by_cases hk2 : k ∈ js2 <;> simp [hbf, hk2, hkj]

lemma truthUpdateAll_canon (upd : List (Option ρ) → List ρ → List (Option ρ))
    (b : Batch ρ) (bv : String → List ρ) (ks : List String)
    (f : String → List (Option ρ)) (hnd : ks.Nodup)
    (hbv : ∀ k ∈ ks, batchGet b k = Except.ok (bv k)) :
    truthUpdateAll upd (canon ks f) b
      = Except.ok (canon ks (fun k => upd (f k) (bv k))) := by
  unfold truthUpdateAll
  rw [canon_keys, truthUpdateGo_canon upd b bv ks ks f hnd (fun j hj => hj) hbv]
  exact congrArg Except.ok (canon_congr (fun k hk => by simp [hk]))

/-! ### Consequences of the collaborator contract -/

lemma gb_find_ev (outputs : List String) (beval : Batch ρ → List (String × List ρ))
    (b : Batch ρ) (hgb : GoodBatch outputs beval b) (k : String) (hk : k ∈ outputs) :
    (beval b).find? (fun p => p.1 == k) = some (k, evLookup (beval b) k)
    ∧ (evLookup (beval b) k).length = bsize b := by
  obtain ⟨hkeys, hlen, _⟩ := hgb
  obtain ⟨v, hv⟩ := find?_key_of_mem_keys (beval b) k (by rw [hkeys]; exact hk)
  have hev : evLookup (beval b) k = v := by simp [evLookup, hv]
  refine ⟨by rw [hev, hv], ?_⟩
  rw [hev]
  exact hlen (k, v) (List.mem_of_find?_eq_some hv)

lemma hasKey_batchGet (b : Batch ρ) (k : String) (h : batchHasKey b k = true) :
    batchGet b k = Except.ok (evLookup b k) := by
  unfold batchHasKey at h
  obtain ⟨p, hp⟩ : ∃ p, b.find? (fun q => q.1 == k) = some p := by
    have hsome : (b.find? (fun q => q.1 == k)).isSome := by
      rw [List.find?_isSome]
      simpa [List.any_eq_true] using h
    exact Option.isSome_iff_exists.mp hsome
  simp [batchGet, hp, evLookup]

lemma gb_batchGet (outputs : List String) (beval : Batch ρ → List (String × List ρ))
    (b : Batch ρ) (hgb : GoodBatch outputs beval b) (k : String) (hk : k ∈ outputs) :
    batchGet b k = Except.ok (evLookup b k)
    ∧ (evLookup b k).length = bsize b := by
  obtain ⟨_, _, htr⟩ := hgb
  exact ⟨hasKey_batchGet b k (htr k hk).1, (htr k hk).2⟩

lemma gb_all_hasKey (outputs : List String) (beval : Batch ρ → List (String × List ρ))
    (b : Batch ρ) (hgb : GoodBatch outputs beval b) :
    outputs.all (batchHasKey b) = true := by
  rw [List.all_eq_true]
  intro k hk
  exact (hgb.2.2 k hk).1

lemma sliceAssign_replicate {γ : Type} (pre : List γ) (m bs : Nat) (x : γ)
    (repl : List γ) (hbs : bs ≤ m) :
    sliceAssign (pre ++ List.replicate m x) pre.length (pre.length + bs) repl
      = (pre ++ repl) ++ List.replicate (m - bs) x := by
  simp only [sliceAssign]
  have hlen : (pre ++ List.replicate m x).length = pre.length + m := by simp
  have hs2 : min pre.length (pre ++ List.replicate m x).length = pre.length := by
    rw [hlen]
    omega
  have he2 : min (max (pre.length + bs) pre.length)
      (pre ++ List.replicate m x).length = pre.length + bs := by
    rw [hlen]
    omega
  rw [hs2, he2, List.take_left, List.drop_append]
  simp [List.drop_replicate]

lemma map_const_val {c : List (Option ρ)} (l : List (String × List ρ)) :
    l.map (fun kv => (kv.1, c)) = canon (l.map Prod.fst) (fun _ => c) := by
  simp [canon, List.map_map, Function.comp_def]

/-! ### Closed forms for the two accumulation strategies -/

lemma accUpdateAll_extend (outputs : List String)
    (beval : Batch ρ → List (String × List ρ)) (b : Batch ρ)
    (f : String → List (Option ρ)) (hnd : outputs.Nodup)
    (hgb : GoodBatch outputs beval b) :
    accUpdateAll (fun old v => old ++ v.map some) (canon outputs f) (beval b)
      = Except.ok (canon outputs (fun k => f k ++ evRows (beval b) k)) := by
  rw [accUpdateAll_canon (fun old v => old ++ v.map some) (beval b) outputs f
    (fun kv hkv => by rw [← hgb.1]; exact List.mem_map.mpr ⟨kv, hkv, rfl⟩)
    (by rw [hgb.1]; exact hnd)]
  apply congrArg Except.ok
  apply canon_congr
  intro k hk
  rw [(gb_find_ev outputs beval b hgb k hk).1]
  rfl

lemma accUpdateAll_slice (outputs : List String)
    (beval : Batch ρ → List (String × List ρ)) (b : Batch ρ)
    (f : String → List (Option ρ)) (n tot : Nat) (hnd : outputs.Nodup)
    (hgb : GoodBatch outputs beval b)
    (hf : ∀ k ∈ outputs, (f k).length = n) (hle : n + bsize b ≤ tot) :
    accUpdateAll (fun old v => sliceAssign old n (n + bsize b) (v.map some))
        (canon outputs (fun k => f k ++ List.replicate (tot - n) none)) (beval b)
      = Except.ok (canon outputs (fun k =>
          (f k ++ evRows (beval b) k)
            ++ List.replicate (tot - (n + bsize b)) none)) := by
  rw [accUpdateAll_canon (fun old v => sliceAssign old n (n + bsize b) (v.map some))
    (beval b) outputs _
    (fun kv hkv => by rw [← hgb.1]; exact List.mem_map.mpr ⟨kv, hkv, rfl⟩)
    (by rw [hgb.1]; exact hnd)]
  apply congrArg Except.ok
  apply canon_congr
  intro k hk
  rw [(gb_find_ev outputs beval b hgb k hk).1]
  show sliceAssign (f k ++ List.replicate (tot - n) none) n (n + bsize b)
      ((evLookup (beval b) k).map some)
    = (f k ++ evRows (beval b) k) ++ List.replicate (tot - (n + bsize b)) none
  have hfk : (f k).length = n := hf k hk
  have hbsle : bsize b ≤ tot - n := by omega
  have hsl := sliceAssign_replicate (f k) (tot - n) (bsize b) none
    ((evLookup (beval b) k).map some) hbsle
  rw [hfk] at hsl
  rw [hsl, Nat.sub_sub]
  rfl

lemma truthUpdateAll_extend (outputs : List String)
    (beval : Batch ρ → List (String × List ρ)) (b : Batch ρ)
    (g : String → List (Option ρ)) (hnd : outputs.Nodup)
    (hgb : GoodBatch outputs beval b) :
    truthUpdateAll (fun old v => old ++ v.map some) (canon outputs g) b
      = Except.ok (canon outputs (fun k => g k ++ evRows b k)) := by
  rw [truthUpdateAll_canon (fun old v => old ++ v.map some) b
    (fun k => evLookup b k) outputs g hnd
    (fun k hk => (gb_batchGet outputs beval b hgb k hk).1)]
  rfl

lemma truthUpdateAll_slice (outputs : List String)
    (beval : Batch ρ → List (String × List ρ)) (b : Batch ρ)
    (g : String → List (Option ρ)) (n tot : Nat) (hnd : outputs.Nodup)
    (hgb : GoodBatch outputs beval b)
    (hg : ∀ k ∈ outputs, (g k).length = n) (hle : n + bsize b ≤ tot) :
    truthUpdateAll (fun old v => sliceAssign old n (n + bsize b) (v.map some))
        (canon outputs (fun k => g k ++ List.replicate (tot - n) none)) b
      = Except.ok (canon outputs (fun k =>
          (g k ++ evRows b k) ++ List.replicate (tot - (n + bsize b)) none)) := by
  rw [truthUpdateAll_canon (fun old v => sliceAssign old n (n + bsize b) (v.map some)) b
    (fun k => evLookup b k) outputs _ hnd
    (fun k hk => (gb_batchGet outputs beval b hgb k hk).1)]
  apply congrArg Except.ok
  apply canon_congr
  intro k hk
  show sliceAssign (g k ++ List.replicate (tot - n) none) n (n + bsize b)
      ((evLookup b k).map some)
    = (g k ++ evRows b k) ++ List.replicate (tot - (n + bsize b)) none
  have hgk : (g k).length = n := hg k hk
  have hbsle : bsize b ≤ tot - n := by omega
  have hsl := sliceAssign_replicate (g k) (tot - n) (bsize b) none
    ((evLookup b k).map some) hbsle
  rw [hgk] at hsl
  rw [hsl, Nat.sub_sub]
  rfl

/-! ### Closed forms for one iteration of the evaluate loop -/

lemma evalStep_none_mid (outputs : List String)
    (beval : Batch ρ → List (String × List ρ)) (b : Batch ρ)
    (f g : String → List (Option ρ)) (n : Nat)
    (hnd : outputs.Nodup) (hgb : GoodBatch outputs beval b) :
    evalStep outputs beval none
        ⟨some (canon outputs f), some (canon outputs g), some true, n⟩ b
      = Except.ok ⟨some (canon outputs (fun k => f k ++ evRows (beval b) k)),
          some (canon outputs (fun k => g k ++ evRows b k)),
          some true, n + bsize b⟩ := by
  simp only [evalStep, Option.getD_some]
  rw [show (get_any_value b).length = bsize b from rfl]
  rw [accUpdateAll_extend outputs beval b f hnd hgb,
    truthUpdateAll_extend outputs beval b g hnd hgb]
  rfl

lemma evalStep_none_first (outputs : List String)
    (beval : Batch ρ → List (String × List ρ)) (b : Batch ρ)
    (hnd : outputs.Nodup) (hgb : GoodBatch outputs beval b) :
    evalStep outputs beval none ⟨none, none, none, 0⟩ b
      = Except.ok ⟨some (canon outputs (fun k => [] ++ evRows (beval b) k)),
          some (canon outputs (fun k => [] ++ evRows b k)),
          some true, 0 + bsize b⟩ := by
  simp only [evalStep, Option.getD_none]
  rw [show (get_any_value b).length = bsize b from rfl]
  rw [gb_all_hasKey outputs beval b hgb]
  rw [show (outputs.map (fun k => (k, ([] : List (Option ρ)))))
      = canon outputs (fun _ => ([] : List (Option ρ))) from rfl]
  rw [accUpdateAll_extend outputs beval b (fun _ => []) hnd hgb,
    truthUpdateAll_extend outputs beval b (fun _ => []) hnd hgb]
  rfl

lemma evalStep_some_mid (outputs : List String)
    (beval : Batch ρ → List (String × List ρ)) (b : Batch ρ)
    (f g : String → List (Option ρ)) (n tot : Nat)
    (hnd : outputs.Nodup) (hgb : GoodBatch outputs beval b)
    (hf : ∀ k ∈ outputs, (f k).length = n) (hg : ∀ k ∈ outputs, (g k).length = n)
    (hle : n + bsize b ≤ tot) :
    evalStep outputs beval (some tot)
        ⟨some (canon outputs (fun k => f k ++ List.replicate (tot - n) none)),
         some (canon outputs (fun k => g k ++ List.replicate (tot - n) none)),
         some true, n⟩ b
      = Except.ok ⟨some (canon outputs (fun k =>
            (f k ++ evRows (beval b) k) ++ List.replicate (tot - (n + bsize b)) none)),
          some (canon outputs (fun k =>
            (g k ++ evRows b k) ++ List.replicate (tot - (n + bsize b)) none)),
          some true, n + bsize b⟩ := by
  simp only [evalStep, Option.getD_some]
  rw [show (get_any_value b).length = bsize b from rfl]
  rw [accUpdateAll_slice outputs beval b f n tot hnd hgb hf hle,
    truthUpdateAll_slice outputs beval b g n tot hnd hgb hg hle]
  rfl

lemma evalStep_some_first (outputs : List String)
    (beval : Batch ρ → List (String × List ρ)) (b : Batch ρ) (tot : Nat)
    (hnd : outputs.Nodup) (hgb : GoodBatch outputs beval b)
    (hle : bsize b ≤ tot) :
    evalStep outputs beval (some tot) ⟨none, none, none, 0⟩ b
      = Except.ok ⟨some (canon outputs (fun k =>
            ([] ++ evRows (beval b) k) ++ List.replicate (tot - (0 + bsize b)) none)),
          some (canon outputs (fun k =>
            ([] ++ evRows b k) ++ List.replicate (tot - (0 + bsize b)) none)),
          some true, 0 + bsize b⟩ := by
  simp only [evalStep, Option.getD_none]
  rw [show (get_any_value b).length = bsize b from rfl]
  rw [gb_all_hasKey outputs beval b hgb]
  rw [map_const_val (beval b), hgb.1]
  rw [show canon outputs (fun _ => List.replicate tot (none : Option ρ))
      = canon outputs (fun k => ([] : List (Option ρ))
          ++ List.replicate (tot - 0) (none : Option ρ)) from rfl]
  rw [accUpdateAll_slice outputs beval b (fun _ => []) 0 tot hnd hgb
      (fun k _ => rfl) (by omega),
    truthUpdateAll_slice outputs beval b (fun _ => []) 0 tot hnd hgb
      (fun k _ => rfl) (by omega)]
  rfl

/-! ### Row lengths under the collaborator contract -/

lemma evRows_length_beval (outputs : List String)
    (beval : Batch ρ → List (String × List ρ)) (b : Batch ρ)
    (hgb : GoodBatch outputs beval b) (k : String) (hk : k ∈ outputs) :
    (evRows (beval b) k).length = bsize b := by
  simp [evRows, (gb_find_ev outputs beval b hgb k hk).2]

lemma evRows_length_batch (outputs : List String)
    (beval : Batch ρ → List (String × List ρ)) (b : Batch ρ)
    (hgb : GoodBatch outputs beval b) (k : String) (hk : k ∈ outputs) :
    (evRows b k).length = bsize b := by
  simp [evRows, (gb_batchGet outputs beval b hgb k hk).2]

lemma rowsAll_length (outputs : List String)
    (beval : Batch ρ → List (String × List ρ)) (k : String) (hk : k ∈ outputs) :
    ∀ (batches : List (Batch ρ)), (∀ b ∈ batches, GoodBatch outputs beval b) →
      (rowsAll beval batches k).length = sizes batches
  | [], _ => by simp [rowsAll, sizes]
  | b :: rest, hgb => by
    have h0 := evRows_length_beval outputs beval b (hgb b (List.mem_cons_self b rest)) k hk
    have ih := rowsAll_length outputs beval k hk rest
      (fun x hx => hgb x (List.mem_cons_of_mem b hx))
    simp only [rowsAll, sizes, List.map_cons, List.flatten_cons, List.sum_cons,
      List.length_append] at *
    omega

lemma trowsAll_length (outputs : List String)
    (beval : Batch ρ → List (String × List ρ)) (k : String) (hk : k ∈ outputs) :
    ∀ (batches : List (Batch ρ)), (∀ b ∈ batches, GoodBatch outputs beval b) →
      (trowsAll batches k).length = sizes batches
  | [], _ => by simp [trowsAll, sizes]
  | b :: rest, hgb => by
    have h0 := evRows_length_batch outputs beval b (hgb b (List.mem_cons_self b rest)) k hk
    have ih := trowsAll_length outputs beval k hk rest
      (fun x hx => hgb x (List.mem_cons_of_mem b hx))
    simp only [trowsAll, sizes, List.map_cons, List.flatten_cons, List.sum_cons,
      List.length_append] at *
    omega

/-! ### Closed forms for the whole loop -/

lemma evalLoop_none_closed (outputs : List String)
    (beval : Batch ρ → List (String × List ρ)) (hnd : outputs.Nodup) :
    ∀ (batches : List (Batch ρ)) (f g : String → List (Option ρ)) (n : Nat),
      (∀ b ∈ batches, GoodBatch outputs beval b) →
      evalLoop outputs beval none
          ⟨some (canon outputs f), some (canon outputs g), some true, n⟩ batches
        = Except.ok ⟨some (canon outputs (fun k => f k ++ rowsAll beval batches k)),
            some (canon outputs (fun k => g k ++ trowsAll batches k)),
            some true, n + sizes batches⟩
  | [], f, g, n, _ => by
    simp only [evalLoop]
    have h1 : canon outputs (fun k => f k ++ rowsAll beval [] k) = canon outputs f :=
      canon_congr (fun k _ => by simp [rowsAll])
    have h2 : canon outputs (fun k => g k ++ trowsAll [] k) = canon outputs g :=
      canon_congr (fun k _ => by simp [trowsAll])
    rw [h1, h2]
    simp [sizes]
  | b :: rest, f, g, n, hgb => by
    have hgb0 := hgb b (List.mem_cons_self b rest)
    have hgbr : ∀ x ∈ rest, GoodBatch outputs beval x :=
      fun x hx => hgb x (List.mem_cons_of_mem b hx)
    simp only [evalLoop]
    rw [evalStep_none_mid outputs beval b f g n hnd hgb0]
    show evalLoop outputs beval none
        ⟨some (canon outputs (fun k => f k ++ evRows (beval b) k)),
         some (canon outputs (fun k => g k ++ evRows b k)),
         some true, n + bsize b⟩ rest = _
    rw [evalLoop_none_closed outputs beval hnd rest
      (fun k => f k ++ evRows (beval b) k) (fun k => g k ++ evRows b k)
      (n + bsize b) hgbr]
    have h1 : canon outputs (fun k => (f k ++ evRows (beval b) k) ++ rowsAll beval rest k)
        = canon outputs (fun k => f k ++ rowsAll beval (b :: rest) k) :=
      canon_congr (fun k _ => by simp [rowsAll, List.append_assoc])
    have h2 : canon outputs (fun k => (g k ++ evRows b k) ++ trowsAll rest k)
        = canon outputs (fun k => g k ++ trowsAll (b :: rest) k) :=
      canon_congr (fun k _ => by simp [trowsAll, List.append_assoc])
    have h3 : n + bsize b + sizes rest = n + sizes (b :: rest) := by
      simp only [sizes, List.map_cons, List.sum_cons]
      omega
    rw [h1, h2, h3]

lemma evalLoop_some_closed (outputs : List String)
    (beval : Batch ρ → List (String × List ρ)) (tot : Nat) (hnd : outputs.Nodup) :
    ∀ (batches : List (Batch ρ)) (f g : String → List (Option ρ)) (n : Nat),
      (∀ b ∈ batches, GoodBatch outputs beval b) →
      (∀ k ∈ outputs, (f k).length = n) → (∀ k ∈ outputs, (g k).length = n) →
      n + sizes batches = tot →
      evalLoop outputs beval (some tot)
          ⟨some (canon outputs (fun k => f k ++ List.replicate (tot - n) none)),
           some (canon outputs (fun k => g k ++ List.replicate (tot - n) none)),
           some true, n⟩ batches
        = Except.ok ⟨some (canon outputs (fun k => f k ++ rowsAll beval batches k)),
            some (canon outputs (fun k => g k ++ trowsAll batches k)),
            some true, tot⟩
  | [], f, g, n, _, _, _, hsum => by
    simp only [evalLoop]
    have hn : tot - n = 0 := by
      simp only [sizes, List.map_nil, List.sum_nil] at hsum
      omega
    have h1 : canon outputs (fun k => f k ++ List.replicate (tot - n) (none : Option ρ))
        = canon outputs (fun k => f k ++ rowsAll beval [] k) :=
      canon_congr (fun k _ => by simp [rowsAll, hn])
    have h2 : canon outputs (fun k => g k ++ List.replicate (tot - n) (none : Option ρ))
        = canon outputs (fun k => g k ++ trowsAll [] k) :=
      canon_congr (fun k _ => by simp [trowsAll, hn])
    have h3 : n = tot := by
      simp only [sizes, List.map_nil, List.sum_nil] at hsum
      omega
    rw [h1, h2, h3]
  | b :: rest, f, g, n, hgb, hf, hg, hsum => by
    have hgb0 := hgb b (List.mem_cons_self b rest)
    have hgbr : ∀ x ∈ rest, GoodBatch outputs beval x :=
      fun x hx => hgb x (List.mem_cons_of_mem b hx)
    have hsizes : sizes (b :: rest) = bsize b + sizes rest := by
      simp [sizes]
    have hle : n + bsize b ≤ tot := by omega
    simp only [evalLoop]
    rw [evalStep_some_mid outputs beval b f g n tot hnd hgb0 hf hg hle]
    show evalLoop outputs beval (some tot)
        ⟨some (canon outputs (fun k =>
            (f k ++ evRows (beval b) k) ++ List.replicate (tot - (n + bsize b)) none)),
         some (canon outputs (fun k =>
            (g k ++ evRows b k) ++ List.replicate (tot - (n + bsize b)) none)),
         some true, n + bsize b⟩ rest = _
    rw [evalLoop_some_closed outputs beval tot hnd rest
      (fun k => f k ++ evRows (beval b) k) (fun k => g k ++ evRows b k)
      (n + bsize b) hgbr
      (fun k hk => by
        simp [hf k hk, evRows_length_beval outputs beval b hgb0 k hk])
      (fun k hk => by
        simp [hg k hk, evRows_length_batch outputs beval b hgb0 k hk])
      (by omega)]
    have h1 : canon outputs (fun k => (f k ++ evRows (beval b) k) ++ rowsAll beval rest k)
        = canon outputs (fun k => f k ++ rowsAll beval (b :: rest) k) :=
      canon_congr (fun k _ => by simp [rowsAll, List.append_assoc])
    have h2 : canon outputs (fun k => (g k ++ evRows b k) ++ trowsAll rest k)
        = canon outputs (fun k => g k ++ trowsAll (b :: rest) k) :=
      canon_congr (fun k _ => by simp [trowsAll, List.append_assoc])
    rw [h1, h2]

lemma finalizeAcc_ok : ∀ (a : Acc ρ), (∀ kv ∈ a, kv.2 ≠ []) →
    finalizeAcc a = Except.ok a
  | [], _ => rfl
  | kv :: rest, h => by
    obtain ⟨k1, v⟩ := kv
    have hkv : v ≠ [] := h (k1, v) (List.mem_cons_self (k1, v) rest)
    have hrest := finalizeAcc_ok rest (fun x hx => h x (List.mem_cons_of_mem (k1, v) hx))
    cases hv : v with
    | nil => exact absurd hv hkv
    | cons a t =>
      subst hv
      simp [finalizeAcc, npConcatenate, hrest]

/-- C1 amended: with ground truth detected on the first batch and the
collaborator contract holding (backend results keyed exactly by the model
outputs, ground truth present in every batch under the output names, all
arrays sharing the batch leading dimension, the first batch nonempty, and
len(provider) equal to the true record total), the unknown-total and the
known-total strategies return identical (result, truth) pairs, and both
succeed with materialized result and truth mappings. -/
theorem evaluate_strategy_equiv (outputs : List String)
    (beval : Batch ρ → List (String × List ρ)) (b0 : Batch ρ)
    (rest : List (Batch ρ)) (hnd : outputs.Nodup)
    (hgb : ∀ b ∈ b0 :: rest, GoodBatch outputs beval b)
    (hpos : 0 < bsize b0) :
    evaluate outputs beval none (b0 :: rest)
        = evaluate outputs beval (some (sizes (b0 :: rest))) (b0 :: rest)
    ∧ ∃ res tr, evaluate outputs beval none (b0 :: rest)
        = Except.ok (some res, some tr) := by
  have hgb0 := hgb b0 (List.mem_cons_self b0 rest)
  have hgbr : ∀ x ∈ rest, GoodBatch outputs beval x :=
    fun x hx => hgb x (List.mem_cons_of_mem b0 hx)
  have hsizes : sizes (b0 :: rest) = bsize b0 + sizes rest := by
    simp [sizes]
  have hloopU : evalLoop outputs beval none ⟨none, none, none, 0⟩ (b0 :: rest)
      = Except.ok ⟨some (canon outputs (fun k =>
            ([] ++ evRows (beval b0) k) ++ rowsAll beval rest k)),
          some (canon outputs (fun k => ([] ++ evRows b0 k) ++ trowsAll rest k)),
          some true, 0 + bsize b0 + sizes rest⟩ := by
    simp only [evalLoop]
    rw [evalStep_none_first outputs beval b0 hnd hgb0]
    show evalLoop outputs beval none
        ⟨some (canon outputs (fun k => [] ++ evRows (beval b0) k)),
         some (canon outputs (fun k => [] ++ evRows b0 k)),
         some true, 0 + bsize b0⟩ rest = _
    exact evalLoop_none_closed outputs beval hnd rest
      (fun k => [] ++ evRows (beval b0) k) (fun k => [] ++ evRows b0 k)
      (0 + bsize b0) hgbr
  have hloopK : evalLoop outputs beval (some (sizes (b0 :: rest)))
        ⟨none, none, none, 0⟩ (b0 :: rest)
      = Except.ok ⟨some (canon outputs (fun k =>
            ([] ++ evRows (beval b0) k) ++ rowsAll beval rest k)),
          some (canon outputs (fun k => ([] ++ evRows b0 k) ++ trowsAll rest k)),
          some true, sizes (b0 :: rest)⟩ := by
    simp only [evalLoop]
    rw [evalStep_some_first outputs beval b0 (sizes (b0 :: rest)) hnd hgb0 (by omega)]
    show evalLoop outputs beval (some (sizes (b0 :: rest)))
        ⟨some (canon outputs (fun k => ([] ++ evRows (beval b0) k)
            ++ List.replicate (sizes (b0 :: rest) - (0 + bsize b0)) none)),
         some (canon outputs (fun k => ([] ++ evRows b0 k)
            ++ List.replicate (sizes (b0 :: rest) - (0 + bsize b0)) none)),
         some true, 0 + bsize b0⟩ rest = _
    exact evalLoop_some_closed outputs beval (sizes (b0 :: rest)) hnd rest
      (fun k => [] ++ evRows (beval b0) k) (fun k => [] ++ evRows b0 k)
      (0 + bsize b0) hgbr
      (fun k hk => by
        simp [evRows_length_beval outputs beval b0 hgb0 k hk])
      (fun k hk => by
        simp [evRows_length_batch outputs beval b0 hgb0 k hk])
      (by omega)
  have hne1 : ∀ kv ∈ canon outputs (fun k =>
      ([] ++ evRows (beval b0) k) ++ rowsAll beval rest k), kv.2 ≠ [] := by
    intro kv hkv hcon
    obtain ⟨k, hk, heq⟩ := List.mem_map.mp hkv
    have h2 : ([] ++ evRows (beval b0) k) ++ rowsAll beval rest k = [] := by
      rw [show (([] ++ evRows (beval b0) k) ++ rowsAll beval rest k)
          = kv.2 from by rw [← heq]]
      exact hcon
    have hlen := congrArg List.length h2
    simp [evRows_length_beval outputs beval b0 hgb0 k hk,
      rowsAll_length outputs beval k hk rest hgbr] at hlen
    omega
  have hne2 : ∀ kv ∈ canon outputs (fun k =>
      ([] ++ evRows b0 k) ++ trowsAll rest k), kv.2 ≠ [] := by
    intro kv hkv hcon
    obtain ⟨k, hk, heq⟩ := List.mem_map.mp hkv
    have h2 : ([] ++ evRows b0 k) ++ trowsAll rest k = [] := by
      rw [show (([] ++ evRows b0 k) ++ trowsAll rest k)
          = kv.2 from by rw [← heq]]
      exact hcon
    have hlen := congrArg List.length h2
    simp [evRows_length_batch outputs beval b0 hgb0 k hk,
      trowsAll_length outputs beval k hk rest hgbr] at hlen
    omega
  have hfin1 := finalizeAcc_ok _ hne1
  have hfin2 := finalizeAcc_ok _ hne2
  have hU : evaluate outputs beval none (b0 :: rest)
      = Except.ok (some (canon outputs (fun k =>
            ([] ++ evRows (beval b0) k) ++ rowsAll beval rest k)),
          some (canon outputs (fun k => ([] ++ evRows b0 k) ++ trowsAll rest k))) := by
    simp only [evaluate, hloopU]
    rw [hfin1, hfin2]
  have hK : evaluate outputs beval (some (sizes (b0 :: rest))) (b0 :: rest)
      = Except.ok (some (canon outputs (fun k =>
            ([] ++ evRows (beval b0) k) ++ rowsAll beval rest k)),
          some (canon outputs (fun k => ([] ++ evRows b0 k) ++ trowsAll rest k))) := by
    simp only [evaluate, hloopK]
  exact ⟨hU.trans hK.symm,
    canon outputs (fun k => ([] ++ evRows (beval b0) k) ++ rowsAll beval rest k),
    canon outputs (fun k => ([] ++ evRows b0 k) ++ trowsAll rest k), hU⟩

/-- C1 witness: a two-batch dataset with co-located ground truth; both
strategies return the same materialized (result, truth) pair. -/
theorem evaluate_strategy_equiv_witness :
    evaluate ["y"] (fun b => [("y", evLookup b "x")]) none
        [[("x", [(1 : Nat), 2]), ("y", [11, 12])], [("x", [3]), ("y", [13])]]
      = evaluate ["y"] (fun b => [("y", evLookup b "x")])
          (some (sizes [[("x", [(1 : Nat), 2]), ("y", [11, 12])],
            [("x", [3]), ("y", [13])]]))
          [[("x", [(1 : Nat), 2]), ("y", [11, 12])], [("x", [3]), ("y", [13])]]
    ∧ ∃ res tr, evaluate ["y"] (fun b => [("y", evLookup b "x")]) none
        [[("x", [(1 : Nat), 2]), ("y", [11, 12])], [("x", [3]), ("y", [13])]]
      = Except.ok (some res, some tr) :=
  evaluate_strategy_equiv ["y"] (fun b => [("y", evLookup b "x")])
    [("x", [(1 : Nat), 2]), ("y", [11, 12])] [[("x", [3]), ("y", [13])]]
    (by decide) (by decide) (by decide)

end Kur
